import Mathlib

set_option autoImplicit false

/-!
Shallow embedding of the regional-filtering helper `restrictRegionally`
(and its inner validator `checkKeys`) shared verbatim by the two notebooks
of this repository.  Grid cells are indexed by a flat spatial index; a data
variable is a list of time slices, each a list of per-cell values, where
`none` is the missing-value sentinel (NaN in the original).  The dynamic
`regionKeyList` argument is modelled by `PyVal`; the notebook-level
availability of the `warnings` module (`mapping.ipynb` imports it, the
regional-analysis notebook does not) is the `warningsAvailable` flag.
-/

namespace IceSat2

/-- Dynamic value passed as the `regionKeyList` argument: a scalar integer,
a string, a set of integers, or a genuine list of integers. -/
inductive PyVal where
  | int (n : Int)
  | str (s : String)
  | set (elems : List Int)
  | list (elems : List Int)
deriving DecidableEq

/-- Whether the dynamic value is a true list (`type(x) == list`). -/
def PyVal.isList : PyVal → Bool
  | .list _ => true
  | _ => false

/-- The failure conditions the routine can raise.  The two `ValueError`
sites of `checkKeys` are distinguished semantically, a missing module-level
name (`warnings` not imported) raises `nameError`, and a catalogue lookup
whose match count is not exactly one (`.item()`) raises
`internalInconsistency`. -/
inductive Err where
  | invalidArgumentType (msg : String)
  | unknownRegionKey (key : Int) (msg : String)
  | nameError (ident : String)
  | internalInconsistency (key : Int)
deriving DecidableEq

/-- One named data variable: a list of time slices, each a list of per-cell
values; `none` is the missing-value sentinel. -/
structure DataVar where
  name : String
  data : List (List (Option Int))
deriving DecidableEq

/-- A gridded dataset: its data variables, the per-cell `region_mask`
coordinate, the catalogue (`keys`/`labels` attributes of `region_mask`),
and the dataset-level attributes. -/
structure Dataset where
  data_vars : List DataVar
  region_mask : List Int
  region_mask_keys : List Int
  region_mask_labels : List String
  attrs : List (String × String)
deriving DecidableEq

/-- Message of the `ValueError` raised when `regionKeyList` is not a list. -/
def invalidArgMsg : String :=
  "regionKeyList needs to be a list. \nFor example, if you want to restrict data to the Beaufort Sea, define regionKeyList = [13]"

/-- Message of the `ValueError` raised for a key absent from the catalogue;
it names the offending key. -/
def unknownKeyMsg (key : Int) : String :=
  "Region key " ++ toString key ++ " does not exist in region mask. \n Redefine regionKeyList with key numbers from table"

/-- Message of the warning emitted for an empty `regionKeyList`. -/
def emptyWarnMsg : String :=
  "You removed all the data from the dataset. Are you sure you wanted to do this? \n If not, make sure the list regionKeyList is not empty and try again. \n If you intended to keep data from all regions, set regionKeyList = list(tbl[\"key\"])"

/-- `checkKeys(regionKeyList, regionTbl)`: type check first, then the
per-key membership loop (first offending key raises), then the empty-list
warning.  Returns the validated key list together with the warnings
emitted; when the `warnings` module is unavailable (the regional-analysis
notebook never imports it) the warn call itself raises `nameError`. -/
def checkKeys (warningsAvailable : Bool) (regionKeyList : PyVal) (keys : List Int) :
    Except Err (List Int × List String) :=
  match regionKeyList with
  | .list rk =>
    match rk.find? (fun k => decide (k ∉ keys)) with
    | some k => .error (.unknownRegionKey k (unknownKeyMsg k))
    | none =>
      if rk.length = 0 then
        if warningsAvailable then .ok (rk, [emptyWarnMsg])
        else .error (.nameError "warnings")
      else .ok (rk, [])
  | _ => .error (.invalidArgumentType invalidArgMsg)

/-- `keysToRemove`: the catalogue keys not present in `regionKeyList`. -/
def keysToRemove (keys rk : List Int) : List Int :=
  keys.filter (fun k => decide (k ∉ rk))

/-- The cumulative masking loop
`for key in keysToRemove: regionalVar = regionalVar.where(regionalVar['region_mask'] != key)`:
each step keeps a cell's value where the mask differs from `key` and
replaces it by the missing sentinel where it equals `key`. -/
def removeKeysVar (mask : List Int) (ks : List Int) (data : List (List (Option Int))) :
    List (List (Option Int)) :=
  ks.foldl
    (fun d k => d.map (fun row => List.zipWith (fun m v => if m = k then none else v) mask row))
    data

/-- `regionTbl[regionTbl['key'] == key]['label'].item()`: the labels of all
catalogue rows whose key equals `key`; `.item()` succeeds exactly when that
selection has exactly one row. -/
def itemLookup (keys : List Int) (labs : List String) (k : Int) : Except Err String :=
  match ((keys.zip labs).filter (fun p => decide (p.1 = k))).map (fun p => p.2) with
  | [l] => .ok l
  | _ => .error (.internalInconsistency k)

/-- The list comprehension resolving every key of `regionKeyList` to its
catalogue label, in order. -/
def labelsFor (keys : List Int) (labs : List String) : List Int → Except Err (List String)
  | [] => .ok []
  | k :: rest =>
    match itemLookup keys labs k with
    | .error e => .error e
    | .ok l =>
      match labelsFor keys labs rest with
      | .error e => .error e
      | .ok ls => .ok (l :: ls)

/-- Total form of the label lookup, used to state what `labelsFor` returns
on a well-formed catalogue. -/
def labelAt (keys : List Int) (labs : List String) (k : Int) : String :=
  (((keys.zip labs).filter (fun p => decide (p.1 = k))).map (fun p => p.2)).headD ""

/-- Python `set(a) == set(b)` on integer lists: mutual membership. -/
def sameSet (a b : List Int) : Bool :=
  a.all (fun x => decide (x ∈ b)) && b.all (fun x => decide (x ∈ a))

/-- `attrs[key] = value` on an attribute dictionary: replace the value of
an existing key in place, otherwise append the pair. -/
def setAttr (a : List (String × String)) (key v : String) : List (String × String) :=
  match a with
  | [] => [(key, v)]
  | (k₀, v₀) :: rest => if k₀ = key then (key, v) :: rest else (k₀, v₀) :: setAttr rest key v

/-- Dictionary lookup on an attribute list. -/
def getAttr (a : List (String × String)) (key : String) : Option String :=
  (a.find? (fun p => decide (p.1 = key))).map (fun p => p.2)

/-- The variable name excluded from masking. -/
def concName : String := "seaice_conc_monthly_cdr"

/-- `restrictRegionally(dataset, regionKeyList)`: validate, copy, mask every
data variable except `seaice_conc_monthly_cdr` over `keysToRemove`, resolve
the labels, and record the `regions with data` summary attribute.  Returns
the new dataset together with the warnings emitted during validation. -/
def restrictRegionally (warningsAvailable : Bool) (ds : Dataset) (regionKeyList : PyVal) :
    Except Err (Dataset × List String) :=
  match checkKeys warningsAvailable regionKeyList ds.region_mask_keys with
  | .error e => .error e
  | .ok (rk, warns) =>
    let ktr := keysToRemove ds.region_mask_keys rk
    let maskedVars := ds.data_vars.map (fun v =>
      if v.name = concName then v
      else { v with data := removeKeysVar ds.region_mask ktr v.data })
    match labelsFor ds.region_mask_keys ds.region_mask_labels rk with
    | .error e => .error e
    | .ok labels =>
      let summary :=
        if labels.length < ds.region_mask_keys.length then
          if sameSet rk [10, 11, 12, 13, 15] then "Inner Arctic"
          else String.intercalate ", " labels
        else "All"
      .ok ({ ds with data_vars := maskedVars,
                     attrs := setAttr ds.attrs "regions with data" summary }, warns)

/-- The call as the caller observes it: the returned result together with
the caller's dataset binding after the call.  The source reads `dataset`
but every write targets `regionalDataset = dataset.copy()` (a distinct
object whose item- and attrs-assignments do not reach the input), so the
caller's dataset after the call is the unchanged input value. -/
def restrictRegionallyCall (warningsAvailable : Bool) (ds : Dataset) (regionKeyList : PyVal) :
    Except Err (Dataset × List String) × Dataset :=
  (restrictRegionally warningsAvailable ds regionKeyList, ds)

/-- Masking expressed as the single set-membership predicate of the spec:
keep a cell's value exactly when its `region_mask` value is an element of
`regionKeyList`. -/
def keepPredVar (mask : List Int) (rk : List Int) (data : List (List (Option Int))) :
    List (List (Option Int)) :=
  data.map (fun row => List.zipWith (fun m v => if m ∈ rk then v else none) mask row)

/-- Modelled from the spec: the summary rule exactly as the spec words it,
choosing "All" when the number of keys in `regionKeyList` EQUALS the number
of catalogued keys. -/
def claimSummaryC7 (rk keys : List Int) (labs : List String) : String :=
  if rk.length = keys.length then "All"
  else if sameSet rk [10, 11, 12, 13, 15] then "Inner Arctic"
  else String.intercalate ", " (rk.map (labelAt keys labs))

/-- The summary rule as the code computes it: "All" whenever the number of
keys in `regionKeyList` is at least the number of catalogued keys. -/
def amendedSummaryC7 (rk keys : List Int) (labs : List String) : String :=
  if keys.length ≤ rk.length then "All"
  else if sameSet rk [10, 11, 12, 13, 15] then "Inner Arctic"
  else String.intercalate ", " (rk.map (labelAt keys labs))

/-- Data-model invariants of §3 of the spec: catalogue keys are unique,
keys and labels have equal length, every `region_mask` value is a
catalogued region identifier, and every time slice of every variable has
one value per spatial grid cell. -/
def WellFormed (ds : Dataset) : Prop :=
  ds.region_mask_keys.Nodup ∧
  ds.region_mask_keys.length = ds.region_mask_labels.length ∧
  (∀ m ∈ ds.region_mask, m ∈ ds.region_mask_keys) ∧
  (∀ v ∈ ds.data_vars, ∀ row ∈ v.data, row.length = ds.region_mask.length)

instance (ds : Dataset) : Decidable (WellFormed ds) := by
  unfold WellFormed; infer_instance

/-- The masking loop of a single time slice (row of per-cell values):
`removeKeysVar` acts on every time slice by this fold. -/
def rowFold (mask : List Int) (ks : List Int) (row : List (Option Int)) : List (Option Int) :=
  ks.foldl (fun r k => List.zipWith (fun m v => if m = k then none else v) mask r) row

/-- A small concrete dataset used to instantiate the theorems: one maskable
variable, the untouched concentration variable, a two-cell grid with mask
values 10 and 11, and the matching two-entry catalogue. -/
def dsEx : Dataset :=
  ⟨[⟨"sea_ice_thickness", [[some 5, some 7]]⟩,
    ⟨"seaice_conc_monthly_cdr", [[some 1, some 2]]⟩],
   [10, 11], [10, 11], ["Sea A", "Sea B"], [("title", "book data")]⟩

/-- The dataset `restrictRegionally` returns for `dsEx` and `regionKeyList
= [10]`: the second grid cell (mask value 11) of the maskable variable is
missing, the concentration is untouched, and the summary is the single
resolved label. -/
def dsExOut : Dataset :=
  ⟨[⟨"sea_ice_thickness", [[some 5, none]]⟩,
    ⟨"seaice_conc_monthly_cdr", [[some 1, some 2]]⟩],
   [10, 11], [10, 11], ["Sea A", "Sea B"],
   [("title", "book data"), ("regions with data", "Sea A")]⟩

/-- The dataset `restrictRegionally` returns for `dsEx` and `regionKeyList
= [10, 10, 10]`: the duplicate-inflated length makes the summary "All"
although region 11 was removed. -/
def dsExOutAll : Dataset :=
  ⟨[⟨"sea_ice_thickness", [[some 5, none]]⟩,
    ⟨"seaice_conc_monthly_cdr", [[some 1, some 2]]⟩],
   [10, 11], [10, 11], ["Sea A", "Sea B"],
   [("title", "book data"), ("regions with data", "All")]⟩

theorem zipWith_zipWith_same {α β : Type} (f g : α → β → β) (as : List α) (bs : List β) :
    List.zipWith f as (List.zipWith g as bs) = List.zipWith (fun a b => f a (g a b)) as bs := by
  induction as generalizing bs with
  | nil => simp
  | cons a as ih =>
    cases bs with
    | nil => simp
    | cons b bs => simp [ih]

theorem zipWith_congr_mem {α β γ : Type} (f g : α → β → γ) (as : List α) (bs : List β)
    (h : ∀ a ∈ as, ∀ b, f a b = g a b) :
    List.zipWith f as bs = List.zipWith g as bs := by
  induction as generalizing bs with
  | nil => simp
  | cons a as ih =>
    cases bs with
    | nil => simp
    | cons b bs =>
      simp only [List.zipWith]
      rw [h a (by simp) b, ih bs (fun x hx b₀ => h x (List.mem_cons_of_mem a hx) b₀)]

theorem zipWith_snd_eq {α β : Type} (as : List α) (bs : List β) (h : bs.length ≤ as.length) :
    List.zipWith (fun _ b => b) as bs = bs := by
  induction as generalizing bs with
  | nil => cases bs with
    | nil => rfl
    | cons b bs => simp at h
  | cons a as ih =>
    cases bs with
    | nil => rfl
    | cons b bs => simp only [List.zipWith]; rw [ih bs (by simpa using h)]

theorem zipWith_getD {α β γ : Type} (f : α → β → γ) (as : List α) (bs : List β) (j : Nat)
    (hja : j < as.length) (hjb : j < bs.length) (da : α) (db : β) (d : γ) :
    (List.zipWith f as bs).getD j d = f (as.getD j da) (bs.getD j db) := by
  induction as generalizing bs j with
  | nil => simp at hja
  | cons a as ih =>
    cases bs with
    | nil => simp at hjb
    | cons b bs =>
      cases j with
      | zero => rfl
      | succ j =>
        simp only [List.zipWith, List.getD_cons_succ]
        exact ih bs j (by simpa using hja) (by simpa using hjb)

theorem removeKeysVar_eq_map_rowFold (mask ks : List Int) (data : List (List (Option Int))) :
    removeKeysVar mask ks data = data.map (rowFold mask ks) := by
  induction ks generalizing data with
  | nil =>
    show data = data.map (rowFold mask [])
    have h1 : data.map (rowFold mask []) = data.map (fun r => r) :=
      List.map_congr_left (fun r _ => rfl)
    rw [h1, List.map_id']
  | cons k ks ih =>
    simp only [removeKeysVar, List.foldl_cons] at *
    rw [ih, List.map_map]
    rfl

theorem rowFold_cons (mask : List Int) (k : Int) (ks : List Int) (row : List (Option Int)) :
    rowFold mask (k :: ks) row =
      List.zipWith (fun m v => if m ∈ k :: ks then none else v) mask row := by
  induction ks generalizing k row with
  | nil =>
    show List.zipWith _ mask row = _
    exact zipWith_congr_mem _ _ _ _ (fun a _ b => by by_cases h : a = k <;> simp [h])
  | cons k₂ ks ih =>
    show rowFold mask (k₂ :: ks) (List.zipWith _ mask row) = _
    rw [ih, zipWith_zipWith_same]
    exact zipWith_congr_mem _ _ _ _ (fun a _ b => by
      by_cases h1 : a = k <;> by_cases h2 : a ∈ k₂ :: ks <;> simp [h1, h2])

theorem rowFold_getD (mask ks : List Int) (row : List (Option Int)) (j : Nat)
    (hj : j < mask.length) (hjr : j < row.length) :
    (rowFold mask ks row).getD j none =
      (if mask.getD j 0 ∈ ks then none else row.getD j none) := by
  cases ks with
  | nil => simp [rowFold]
  | cons k ks =>
    rw [rowFold_cons, zipWith_getD _ mask row j hj hjr 0 none none]

theorem rowFold_idem (mask ks : List Int) (row : List (Option Int)) :
    rowFold mask ks (rowFold mask ks row) = rowFold mask ks row := by
  cases ks with
  | nil => rfl
  | cons k ks =>
    rw [rowFold_cons, rowFold_cons, zipWith_zipWith_same]
    exact zipWith_congr_mem _ _ _ _ (fun a _ b => by by_cases h : a ∈ k :: ks <;> simp [h])

theorem removeKeysVar_idem (mask ks : List Int) (data : List (List (Option Int))) :
    removeKeysVar mask ks (removeKeysVar mask ks data) = removeKeysVar mask ks data := by
  rw [removeKeysVar_eq_map_rowFold, removeKeysVar_eq_map_rowFold, List.map_map]
  exact List.map_congr_left (fun row _ => rowFold_idem mask ks row)

theorem rowFold_perm (mask : List Int) (ks₁ ks₂ : List Int) (row : List (Option Int))
    (h : ks₁.Perm ks₂) : rowFold mask ks₁ row = rowFold mask ks₂ row := by
  cases ks₁ with
  | nil => rw [h.nil_eq]
  | cons k₁ t₁ =>
    cases ks₂ with
    | nil => exact absurd h.symm.nil_eq (by simp)
    | cons k₂ t₂ =>
      rw [rowFold_cons, rowFold_cons]
      exact zipWith_congr_mem _ _ _ _ (fun a _ b => by
        by_cases hm : a ∈ k₂ :: t₂ <;> simp [hm, h.mem_iff])

theorem mem_keysToRemove (keys rk : List Int) (m : Int) :
    m ∈ keysToRemove keys rk ↔ m ∈ keys ∧ m ∉ rk := by
  simp [keysToRemove]

theorem filter_zip_eq_nil (keys : List Int) (labs : List String) (k : Int) (hk : k ∉ keys) :
    (keys.zip labs).filter (fun p => decide (p.1 = k)) = [] := by
  rw [List.filter_eq_nil_iff]
  intro p hp
  have h1 : p.1 ∈ keys := (List.of_mem_zip hp).1
  simp only [decide_eq_true_eq]
  intro he
  exact hk (he ▸ h1)

theorem filter_zip_singleton (keys : List Int) (labs : List String) (k : Int)
    (hnd : keys.Nodup) (hlen : keys.length = labs.length) (hk : k ∈ keys) :
    ∃ l, (keys.zip labs).filter (fun p => decide (p.1 = k)) = [(k, l)] := by
  induction keys generalizing labs with
  | nil => simp at hk
  | cons k₀ kt ih =>
    cases labs with
    | nil => simp at hlen
    | cons l₀ lt =>
      by_cases he : k₀ = k
      · refine ⟨l₀, ?_⟩
        subst he
        simp only [List.zip_cons_cons, List.filter_cons, decide_eq_true_eq]
        rw [if_pos trivial, filter_zip_eq_nil kt lt k₀ (by simpa using (List.nodup_cons.1 hnd).1)]
      · have hk₂ : k ∈ kt := by
          cases List.mem_cons.1 hk with
          | inl h => exact absurd h.symm he
          | inr h => exact h
        obtain ⟨l, hl⟩ := ih lt (List.nodup_cons.1 hnd).2 (by simpa using hlen) hk₂
        refine ⟨l, ?_⟩
        simp only [List.zip_cons_cons, List.filter_cons, decide_eq_true_eq]
        rw [if_neg he, hl]

theorem itemLookup_ok (keys : List Int) (labs : List String) (k : Int)
    (hnd : keys.Nodup) (hlen : keys.length = labs.length) (hk : k ∈ keys) :
    itemLookup keys labs k = .ok (labelAt keys labs k) := by
  obtain ⟨l, hl⟩ := filter_zip_singleton keys labs k hnd hlen hk
  unfold itemLookup labelAt
  rw [hl]
  rfl

theorem labelsFor_ok (keys : List Int) (labs : List String) (rk : List Int)
    (hnd : keys.Nodup) (hlen : keys.length = labs.length)
    (hvalid : ∀ k ∈ rk, k ∈ keys) :
    labelsFor keys labs rk = .ok (rk.map (labelAt keys labs)) := by
  induction rk with
  | nil => rfl
  | cons k t ih =>
    unfold labelsFor
    rw [itemLookup_ok keys labs k hnd hlen (hvalid k (by simp)),
        ih (fun x hx => hvalid x (List.mem_cons_of_mem k hx))]
    rfl

theorem checkKeys_list_ok (w : Bool) (rk keys : List Int) (r : List Int × List String)
    (h : checkKeys w (.list rk) keys = .ok r) :
    r.1 = rk ∧ (∀ k ∈ rk, k ∈ keys) ∧ r.2 = (if rk.length = 0 then [emptyWarnMsg] else []) := by
  unfold checkKeys at h
  dsimp only at h
  cases hf : rk.find? (fun k => decide (k ∉ keys)) with
  | some k => rw [hf] at h; cases h
  | none =>
    rw [hf] at h
    have hv : ∀ k ∈ rk, k ∈ keys := by
      intro k hk
      have h1 := List.find?_eq_none.1 hf k hk
      simpa using h1
    by_cases hlen : rk.length = 0
    · rw [if_pos hlen] at h
      cases w with
      | false => cases h
      | true =>
        refine ⟨?_, hv, ?_⟩ <;> cases h <;> simp [hlen]
    · rw [if_neg hlen] at h
      refine ⟨?_, hv, ?_⟩ <;> cases h <;> simp [hlen]

theorem checkKeys_ok_shape (w : Bool) (rkl : PyVal) (keys : List Int)
    (r : List Int × List String) (h : checkKeys w rkl keys = .ok r) :
    rkl = .list r.1 := by
  cases rkl with
  | list rk => rw [(checkKeys_list_ok w rk keys r h).1]
  | int n => cases h
  | str s => cases h
  | set es => cases h

theorem getAttr_setAttr (a : List (String × String)) (key v : String) :
    getAttr (setAttr a key v) key = some v := by
  induction a with
  | nil => simp [setAttr, getAttr, List.find?]
  | cons p rest ih =>
    by_cases h : p.1 = key
    · simp [setAttr, getAttr, List.find?, h]
    · simp only [setAttr]
      rw [if_neg h]
      simp only [getAttr, List.find?]
      rw [decide_eq_false h]
      exact ih

theorem restrict_ok_inv (w : Bool) (ds : Dataset) (rkl : PyVal) (out : Dataset)
    (warns : List String) (h : restrictRegionally w ds rkl = .ok (out, warns)) :
    ∃ rk labels, rkl = .list rk ∧
      checkKeys w rkl ds.region_mask_keys = .ok (rk, warns) ∧
      labelsFor ds.region_mask_keys ds.region_mask_labels rk = .ok labels ∧
      out = { ds with
        data_vars := ds.data_vars.map (fun v =>
          if v.name = concName then v
          else { v with data :=
            removeKeysVar ds.region_mask (keysToRemove ds.region_mask_keys rk) v.data }),
        attrs := setAttr ds.attrs "regions with data"
          (if labels.length < ds.region_mask_keys.length then
             if sameSet rk [10, 11, 12, 13, 15] then "Inner Arctic"
             else String.intercalate ", " labels
           else "All") } := by
  unfold restrictRegionally at h
  cases hck : checkKeys w rkl ds.region_mask_keys with
  | error e => rw [hck] at h; cases h
  | ok p =>
    obtain ⟨rk, ws⟩ := p
    rw [hck] at h
    dsimp only at h
    cases hlb : labelsFor ds.region_mask_keys ds.region_mask_labels rk with
    | error e => rw [hlb] at h; cases h
    | ok labels =>
      rw [hlb] at h
      dsimp only at h
      injection h with h1
      injection h1 with hout hw
      refine ⟨rk, labels, ?_, ?_, hlb, hout.symm⟩
      · rw [checkKeys_ok_shape w rkl _ _ hck]
      · rw [hw]

theorem setAttr_idem (a : List (String × String)) (key v : String) :
    setAttr (setAttr a key v) key v = setAttr a key v := by
  induction a with
  | nil => simp [setAttr]
  | cons p rest ih =>
    by_cases h : p.1 = key
    · simp [setAttr, h]
    · simp only [setAttr]
      rw [if_neg h]
      simp only [setAttr]
      rw [if_neg h, ih]

/-- C3: the call never mutates the caller's dataset: the caller-observable
dataset after the call is the unchanged input, and on any validation
failure the call aborts with that error, producing no output dataset. -/
theorem claim3_no_input_mutation (w : Bool) (ds : Dataset) (rkl : PyVal) :
    (restrictRegionallyCall w ds rkl).2 = ds ∧
    ∀ e, checkKeys w rkl ds.region_mask_keys = .error e →
      (restrictRegionallyCall w ds rkl).1 = .error e := by
  refine ⟨rfl, fun e he => ?_⟩
  show restrictRegionally w ds rkl = .error e
  unfold restrictRegionally
  rw [he]

theorem claim3_witness :
    checkKeys true (.int 5) dsEx.region_mask_keys =
        .error (.invalidArgumentType invalidArgMsg) ∧
      (restrictRegionallyCall true dsEx (.int 5)).2 = dsEx ∧
      (restrictRegionallyCall true dsEx (.int 5)).1 =
        .error (.invalidArgumentType invalidArgMsg) := by
  have h := claim3_no_input_mutation true dsEx (.int 5)
  exact ⟨rfl, h.1, h.2 _ rfl⟩

/-- C4: a non-list `regionKeyList` (scalar, set, or string) fails with
`InvalidArgumentType` carrying the guidance message, independently of the
catalogue and hence before any individual key is checked; a true list never
produces that condition. -/
theorem claim4_type_check (v : PyVal) (w : Bool) (keys : List Int) :
    (v.isList = false → checkKeys w v keys = .error (.invalidArgumentType invalidArgMsg)) ∧
    (∀ rk, v = .list rk → ∀ m, checkKeys w v keys ≠ .error (.invalidArgumentType m)) := by
  constructor
  · intro hnl
    cases v with
    | list rk => simp [PyVal.isList] at hnl
    | int n => rfl
    | str s => rfl
    | set es => rfl
  · intro rk hv m
    subst hv
    unfold checkKeys
    dsimp only
    cases hf : rk.find? (fun k => decide (k ∉ keys)) with
    | some k => simp
    | none => by_cases hl : rk.length = 0 <;> cases w <;> simp [hl]

theorem claim4_witness :
    (PyVal.int 5).isList = false ∧
      checkKeys true (.int 5) [10, 11] = .error (.invalidArgumentType invalidArgMsg) ∧
      checkKeys true (.list [10]) [10, 11] ≠ .error (.invalidArgumentType invalidArgMsg) := by
  have h1 := (claim4_type_check (.int 5) true [10, 11]).1 rfl
  have h2 := (claim4_type_check (.list [10]) true [10, 11]).2 [10] rfl invalidArgMsg
  exact ⟨rfl, h1, h2⟩

/-- C5: a list containing a key absent from the catalogue makes the call
fail with `UnknownRegionKey` for such an offending key (whose message is
built from that key), so no output dataset is produced. -/
theorem claim5_unknown_key (w : Bool) (ds : Dataset) (rk : List Int)
    (h : ∃ k ∈ rk, k ∉ ds.region_mask_keys) :
    ∃ k, k ∈ rk ∧ k ∉ ds.region_mask_keys ∧
      restrictRegionally w ds (.list rk) =
        .error (.unknownRegionKey k (unknownKeyMsg k)) := by
  have hf : (rk.find? (fun k => decide (k ∉ ds.region_mask_keys))).isSome := by
    rw [List.find?_isSome]
    obtain ⟨k, hk, hnk⟩ := h
    exact ⟨k, hk, by simpa using hnk⟩
  obtain ⟨k₀, hk₀⟩ := Option.isSome_iff_exists.1 hf
  refine ⟨k₀, List.mem_of_find?_eq_some hk₀, by simpa using List.find?_some hk₀, ?_⟩
  unfold restrictRegionally checkKeys
  dsimp only
  rw [hk₀]

theorem claim5_witness :
    (∃ k ∈ [(999 : Int)], k ∉ dsEx.region_mask_keys) ∧
      ∃ k, k ∈ [(999 : Int)] ∧ k ∉ dsEx.region_mask_keys ∧
        restrictRegionally true dsEx (.list [999]) =
          .error (.unknownRegionKey k (unknownKeyMsg k)) :=
  ⟨⟨999, by decide⟩, claim5_unknown_key true dsEx [999] ⟨999, by decide⟩⟩

/-- C6: evaluation at the failing input.  In the regional-analysis notebook
the `warnings` module is never imported, so `regionKeyList = []` crashes
with a `NameError` instead of warning and completing; with the module
available (as in `mapping.ipynb`) the same call completes, emits the
warning, and leaves every variable except the concentration fully
missing. -/
theorem getD_map_lt {α β : Type} (f : α → β) (l : List α) (t : Nat) (h : t < l.length)
    (d : β) (d₀ : α) : (l.map f).getD t d = f (l.getD t d₀) := by
  rw [List.getD_eq_getElem?_getD, List.getElem?_map, List.getD_eq_getElem?_getD,
      List.getElem?_eq_getElem h]
  rfl

/-- C1: on a well-formed dataset and a valid key list, every variable other
than the concentration keeps a cell's value exactly when the cell's
`region_mask` value is an element of `regionKeyList`, and is the missing
sentinel otherwise. -/
theorem claim1_regional_masking (w : Bool) (ds : Dataset) (rk : List Int)
    (out : Dataset) (warns : List String)
    (hwf : WellFormed ds)
    (_hvalid : ∀ k ∈ rk, k ∈ ds.region_mask_keys)
    (h : restrictRegionally w ds (.list rk) = .ok (out, warns)) :
    ∀ (i : Nat) (v vOut : DataVar), ds.data_vars[i]? = some v → out.data_vars[i]? = some vOut →
      v.name ≠ concName →
      ∀ t j, t < v.data.length → j < ds.region_mask.length →
        (vOut.data.getD t []).getD j none =
          (if ds.region_mask.getD j 0 ∈ rk then (v.data.getD t []).getD j none
           else none) := by
  obtain ⟨rk₀, labels, hshape, hck, hlb, hout⟩ :=
    restrict_ok_inv w ds (.list rk) out warns h
  have hrk : rk = rk₀ := by injection hshape
  subst hrk
  subst hout
  intro i v vOut hv hvo hname t j ht hj
  dsimp only at hvo
  rw [List.getElem?_map, hv] at hvo
  simp only [Option.map_some'] at hvo
  rw [if_neg hname] at hvo
  injection hvo with hvo
  subst hvo
  dsimp only
  rw [removeKeysVar_eq_map_rowFold, getD_map_lt _ _ t ht [] []]
  have hvmem : v ∈ ds.data_vars := List.getElem?_mem hv
  have hrowmem : v.data.getD t [] ∈ v.data := by
    rw [List.getD_eq_getElem _ _ ht]
    exact List.getElem_mem ht
  have hrlen : (v.data.getD t []).length = ds.region_mask.length :=
    hwf.2.2.2 v hvmem _ hrowmem
  rw [rowFold_getD _ _ _ j hj (by omega)]
  have hmk : ds.region_mask.getD j 0 ∈ ds.region_mask_keys := by
    apply hwf.2.2.1
    rw [List.getD_eq_getElem _ _ hj]
    exact List.getElem_mem hj
  by_cases hmem : ds.region_mask.getD j 0 ∈ rk
  · rw [if_neg (by rw [mem_keysToRemove]; tauto), if_pos hmem]
  · rw [if_pos ((mem_keysToRemove _ _ _).2 ⟨hmk, hmem⟩), if_neg hmem]

theorem claim1_witness :
    WellFormed dsEx ∧
      (([[some (5 : Int), none]].getD 0 []).getD 1 none =
        if dsEx.region_mask.getD 1 0 ∈ [(10 : Int)] then
          (([[some (5 : Int), some 7]].getD 0 []).getD 1 none)
        else none) :=
  ⟨by decide,
    claim1_regional_masking true dsEx [10] dsExOut [] (by decide) (by decide) rfl 0
      ⟨"sea_ice_thickness", [[some 5, some 7]]⟩ ⟨"sea_ice_thickness", [[some 5, none]]⟩
      rfl rfl (by decide) 0 1 (by decide) (by decide)⟩

/-- C2: the `seaice_conc_monthly_cdr` variable of any successful result is
the input's variable, bit for bit, whatever the selection was. -/
theorem claim2_conc_untouched (w : Bool) (ds : Dataset) (rkl : PyVal)
    (out : Dataset) (warns : List String)
    (h : restrictRegionally w ds rkl = .ok (out, warns)) :
    ∀ (i : Nat) (v : DataVar), ds.data_vars[i]? = some v → v.name = concName →
      out.data_vars[i]? = some v := by
  obtain ⟨rk, labels, -, -, -, hout⟩ := restrict_ok_inv w ds rkl out warns h
  intro i v hv hname
  subst hout
  dsimp only
  rw [List.getElem?_map, hv]
  simp [hname]

theorem claim2_witness :
    dsEx.data_vars[1]? = some ⟨"seaice_conc_monthly_cdr", [[some 1, some 2]]⟩ ∧
      dsExOut.data_vars[1]? = some ⟨"seaice_conc_monthly_cdr", [[some 1, some 2]]⟩ :=
  ⟨rfl, claim2_conc_untouched true dsEx (.list [10]) dsExOut [] rfl 1 _ rfl rfl⟩

/-- C7 counterexample: with catalogue `[10, 11]` the valid selection
`[10, 10, 10]` has more keys than the catalogue, the code records "All",
yet the spec's equality-based rule prescribes the joined label list. -/
theorem claim7_counterexample :
    (restrictRegionally true dsEx (.list [10, 10, 10])).toOption.map
        (fun p => getAttr p.1.attrs "regions with data") = some (some "All") ∧
    claimSummaryC7 [10, 10, 10] dsEx.region_mask_keys dsEx.region_mask_labels =
      "Sea A, Sea A, Sea A" ∧
    ("All" : String) ≠ "Sea A, Sea A, Sea A" :=
  ⟨rfl, rfl, by decide⟩

/-- C7 amended: the summary is "All" when the number of keys in
`regionKeyList` is AT LEAST the number of catalogued keys; otherwise
"Inner Arctic" for the canonical set, otherwise the comma-and-space-joined
resolved labels in selection order. -/
theorem claim7_amended_summary (w : Bool) (ds : Dataset) (rk : List Int)
    (out : Dataset) (warns : List String)
    (hwf : WellFormed ds)
    (hvalid : ∀ k ∈ rk, k ∈ ds.region_mask_keys)
    (h : restrictRegionally w ds (.list rk) = .ok (out, warns)) :
    getAttr out.attrs "regions with data" =
      some (amendedSummaryC7 rk ds.region_mask_keys ds.region_mask_labels) := by
  obtain ⟨rk₀, labels, hshape, hck, hlb, hout⟩ :=
    restrict_ok_inv w ds (.list rk) out warns h
  have hrk : rk = rk₀ := by injection hshape
  subst hrk
  have hlab : labels = rk.map (labelAt ds.region_mask_keys ds.region_mask_labels) := by
    have h2 := labelsFor_ok ds.region_mask_keys ds.region_mask_labels rk
      hwf.1 hwf.2.1 hvalid
    rw [hlb] at h2
    injection h2
  subst hout
  dsimp only
  rw [getAttr_setAttr]
  congr 1
  rw [hlab, List.length_map]
  unfold amendedSummaryC7
  by_cases hl : rk.length < ds.region_mask_keys.length
  · have hn : ¬ ds.region_mask_keys.length ≤ rk.length := by omega
    rw [if_pos hl, if_neg hn]
  · have hge : ds.region_mask_keys.length ≤ rk.length := by omega
    rw [if_neg hl, if_pos hge]

theorem claim7_witness :
    WellFormed dsEx ∧
      getAttr dsExOut.attrs "regions with data" =
        some (amendedSummaryC7 [10] dsEx.region_mask_keys dsEx.region_mask_labels) :=
  ⟨by decide,
    claim7_amended_summary true dsEx [10] dsExOut [] (by decide) (by decide) rfl⟩

/-- C8: the cumulative per-key exclusion is order-independent (any
permutation of `keysToRemove` produces the same values) and, on a
well-formed dataset, equals the single membership predicate keeping a cell
exactly when its `region_mask` value is in `regionKeyList`. -/
theorem claim8_order_independence (ds : Dataset) (rk ks₂ : List Int)
    (hwf : WellFormed ds)
    (hperm : ks₂.Perm (keysToRemove ds.region_mask_keys rk)) :
    ∀ v ∈ ds.data_vars,
      removeKeysVar ds.region_mask ks₂ v.data =
        removeKeysVar ds.region_mask (keysToRemove ds.region_mask_keys rk) v.data ∧
      removeKeysVar ds.region_mask (keysToRemove ds.region_mask_keys rk) v.data =
        keepPredVar ds.region_mask rk v.data := by
  intro v hv
  constructor
  · rw [removeKeysVar_eq_map_rowFold, removeKeysVar_eq_map_rowFold]
    exact List.map_congr_left (fun row _ => rowFold_perm _ _ _ row hperm)
  · rw [removeKeysVar_eq_map_rowFold]
    unfold keepPredVar
    apply List.map_congr_left
    intro row hrow
    have hlen : row.length = ds.region_mask.length := hwf.2.2.2 v hv row hrow
    cases hk : keysToRemove ds.region_mask_keys rk with
    | nil =>
      show row = _
      have hall : ∀ m ∈ ds.region_mask, m ∈ rk := by
        intro m hm
        have hmk := hwf.2.2.1 m hm
        by_contra hmr
        have hmem : m ∈ keysToRemove ds.region_mask_keys rk :=
          (mem_keysToRemove _ _ m).2 ⟨hmk, hmr⟩
        rw [hk] at hmem
        simp at hmem
      rw [show List.zipWith (fun m v => if m ∈ rk then v else none) ds.region_mask row
            = row from by
        rw [zipWith_congr_mem _ (fun _ b => b) _ _ (fun a ha b => if_pos (hall a ha))]
        exact zipWith_snd_eq _ _ (le_of_eq hlen)]
    | cons k ks =>
      rw [rowFold_cons]
      apply zipWith_congr_mem
      intro a ha b
      have hak : a ∈ ds.region_mask_keys := hwf.2.2.1 a ha
      by_cases har : a ∈ rk
      · have hnk : a ∉ k :: ks := by
          rw [← hk, mem_keysToRemove]
          tauto
        rw [if_neg hnk, if_pos har]
      · have hik : a ∈ k :: ks := by
          rw [← hk, mem_keysToRemove]
          exact ⟨hak, har⟩
        rw [if_pos hik, if_neg har]

theorem claim8_witness :
    WellFormed dsEx ∧
      ([(11 : Int), 10]).Perm (keysToRemove dsEx.region_mask_keys []) ∧
      removeKeysVar dsEx.region_mask [11, 10] [[some 5, some 7]] =
        removeKeysVar dsEx.region_mask (keysToRemove dsEx.region_mask_keys [])
          [[some 5, some 7]] :=
  ⟨by decide, by decide,
    (claim8_order_independence dsEx [] [11, 10] (by decide) (by decide)
      ⟨"sea_ice_thickness", [[some 5, some 7]]⟩ (by decide)).1⟩

/-- C9: filtering an already-filtered dataset with the same selection
returns the identical dataset, variables and metadata alike, with the same
warnings. -/
theorem claim9_idempotent (w : Bool) (ds : Dataset) (rkl : PyVal)
    (out : Dataset) (warns : List String)
    (h : restrictRegionally w ds rkl = .ok (out, warns)) :
    restrictRegionally w out rkl = .ok (out, warns) := by
  obtain ⟨rk, labels, hshape, hck, hlb, hout⟩ := restrict_ok_inv w ds rkl out warns h
  subst hshape
  subst hout
  unfold restrictRegionally
  dsimp only
  rw [hck]
  dsimp only
  rw [hlb]
  dsimp only
  rw [List.map_map]
  have hvars :
      ds.data_vars.map ((fun v =>
          if v.name = concName then v
          else { v with data :=
            removeKeysVar ds.region_mask (keysToRemove ds.region_mask_keys rk) v.data }) ∘
        (fun v =>
          if v.name = concName then v
          else { v with data :=
            removeKeysVar ds.region_mask (keysToRemove ds.region_mask_keys rk) v.data })) =
      ds.data_vars.map (fun v =>
          if v.name = concName then v
          else { v with data :=
            removeKeysVar ds.region_mask (keysToRemove ds.region_mask_keys rk) v.data }) := by
    apply List.map_congr_left
    intro v _
    by_cases hn : v.name = concName <;>
      simp [Function.comp, hn, removeKeysVar_idem]
  rw [hvars, setAttr_idem]

theorem claim9_witness :
    restrictRegionally true dsExOut (.list [10]) = .ok (dsExOut, []) :=
  claim9_idempotent true dsEx (.list [10]) dsExOut [] rfl

/-- C10: validation accepts duplicated keys; the summary branch compares
the resolved-label count with the catalogue size, so any valid selection at
least as long as the catalogue is summarised "All", and otherwise the
joined summary repeats the label of every duplicated key. -/
theorem claim10_duplicate_keys (w : Bool) (ds : Dataset) (rk : List Int)
    (out : Dataset) (warns : List String)
    (hwf : WellFormed ds)
    (hvalid : ∀ k ∈ rk, k ∈ ds.region_mask_keys)
    (h : restrictRegionally w ds (.list rk) = .ok (out, warns)) :
    (∃ r, checkKeys w (.list rk) ds.region_mask_keys = .ok r) ∧
    (ds.region_mask_keys.length ≤ rk.length →
      getAttr out.attrs "regions with data" = some "All") ∧
    (rk.length < ds.region_mask_keys.length → sameSet rk [10, 11, 12, 13, 15] = false →
      getAttr out.attrs "regions with data" =
        some (String.intercalate ", "
          (rk.map (labelAt ds.region_mask_keys ds.region_mask_labels)))) := by
  have hsummary := claim7_amended_summary w ds rk out warns hwf hvalid h
  obtain ⟨rk₀, labels, hshape, hck, hlb, hout⟩ :=
    restrict_ok_inv w ds (.list rk) out warns h
  have hrk : rk = rk₀ := by injection hshape
  subst hrk
  refine ⟨⟨(rk, warns), hck⟩, ?_, ?_⟩
  · intro hge
    rw [hsummary]
    unfold amendedSummaryC7
    rw [if_pos hge]
  · intro hlt hss
    rw [hsummary]
    unfold amendedSummaryC7
    rw [if_neg (by omega), if_neg (by simp [hss])]

theorem claim10_witness :
    dsEx.region_mask_keys.length ≤ ([(10 : Int), 10, 10]).length ∧
      getAttr dsExOutAll.attrs "regions with data" = some "All" :=
  ⟨by decide,
    (claim10_duplicate_keys true dsEx [10, 10, 10] dsExOutAll [] (by decide) (by decide)
      rfl).2.1 (by decide)⟩

theorem claim6_empty_selection_eval :
    restrictRegionally false dsEx (.list []) = .error (.nameError "warnings") ∧
    restrictRegionally true dsEx (.list []) =
      .ok ({ dsEx with
        data_vars := [⟨"sea_ice_thickness", [[none, none]]⟩,
                      ⟨"seaice_conc_monthly_cdr", [[some 1, some 2]]⟩],
        attrs := [("title", "book data"), ("regions with data", "")] }, [emptyWarnMsg]) :=
  ⟨rfl, rfl⟩

end IceSat2
